import Mathlib

/-!
Verification of the CDRProcessor repository (CDRProcessor.py).

This development is a shallow embedding of the CDRProcessor class. Python
dictionaries are insertion-ordered association lists with unique keys;
Python values occurring in the program (int, str, None) are the type PyVal;
Python exceptions are the type PyErr, and fallible operations return
Except PyErr or a state paired with an optional uncaught exception.
Directory scanning and file reading are I/O plumbing outside the core, so
process_directory here consumes the matched file list directly: each file
is its name plus the stream of csv rows, where a row either decodes to a
list of string fields or raises UnicodeDecodeError when read.
-/

namespace CDR

/-- Python values that flow through the processor: integers, strings and
None. csv rows always supply strings; conversion introduces ints and None. -/
inductive PyVal where
  | int (n : Int)
  | str (s : String)
  | null
deriving DecidableEq, Repr

/-- Python exceptions the embedded code can raise. -/
inductive PyErr where
  | keyError (key : String)
  | nameError (missing : String)
  | typeError (msg : String)
  | stopIteration
  | unicodeDecodeError
  | exception (msg : String)
deriving DecidableEq, Repr

/-- Decidable equality for Except, so concrete runs can be checked by decide. -/
instance {ε α : Type} [DecidableEq ε] [DecidableEq α] : DecidableEq (Except ε α) :=
  fun a b =>
    match a, b with
    | Except.ok x, Except.ok y =>
      if h : x = y then isTrue (congrArg Except.ok h)
      else isFalse (fun hc => h (Except.ok.inj hc))
    | Except.error x, Except.error y =>
      if h : x = y then isTrue (congrArg Except.error h)
      else isFalse (fun hc => h (Except.error.inj hc))
    | Except.ok _, Except.error _ => isFalse (fun hc => Except.noConfusion hc)
    | Except.error _, Except.ok _ => isFalse (fun hc => Except.noConfusion hc)

/-- Assignment d[k] = v on an insertion-ordered Python dict: an existing
key keeps its position and gets the new value, a new key is appended. -/
def dictInsert {κ α : Type} [DecidableEq κ] : List (κ × α) → κ → α → List (κ × α)
  | [], k, v => [(k, v)]
  | (k1, v1) :: rest, k, v =>
    if k1 = k then (k, v) :: rest else (k1, v1) :: dictInsert rest k v

/-- Lookup d[k] on an ordered dict, as an Option. -/
def dictGet? {κ α : Type} [DecidableEq κ] : List (κ × α) → κ → Option α
  | [], _ => none
  | (k1, v1) :: rest, k => if k1 = k then some v1 else dictGet? rest k

/-- d.keys() of an ordered dict, in order. -/
def dictKeys {κ α : Type} (d : List (κ × α)) : List κ := d.map Prod.fst

/-- The membership test `k in d.keys()`. -/
def dictHasKey {κ α : Type} [DecidableEq κ] (d : List (κ × α)) (k : κ) : Bool :=
  (dictGet? d k).isSome

/-- dict(zip(ks, vs)): zip truncates at the shorter list, then the pairs
are inserted left to right into an empty dict. -/
def dictOfZip {κ α : Type} [DecidableEq κ] (ks : List κ) (vs : List α) : List (κ × α) :=
  (List.zip ks vs).foldl (fun d p => dictInsert d p.1 p.2) []

/-- Whitespace stripped by Python str.strip() (ASCII part). -/
def pySpace (c : Char) : Bool :=
  decide (c = ' ') || decide (c = '\t') || decide (c = '\n') ||
  decide (c = '\r') || decide (c.toNat = 11) || decide (c.toNat = 12)

/-- Strip pySpace characters from both ends of a character list. -/
def pyStrip (cs : List Char) : List Char :=
  ((cs.dropWhile pySpace).reverse.dropWhile pySpace).reverse

/-- No two consecutive underscore characters. -/
def noDoubleUnderscore : List Char → Bool
  | a :: b :: rest =>
    (if a = '_' ∧ b = '_' then false else true) && noDoubleUnderscore (b :: rest)
  | _ => true

/-- The digit body accepted by Python int(): one or more ASCII digits with
single underscores allowed only between digits. -/
def validUDigits (cs : List Char) : Bool :=
  match cs with
  | [] => false
  | c :: _ =>
    c.isDigit &&
    (match cs.getLast? with
     | some d => d.isDigit
     | none => false) &&
    cs.all (fun ch => ch.isDigit || decide (ch = '_')) &&
    noDoubleUnderscore cs

/-- Decimal value of a digit list. -/
def digitsVal (cs : List Char) : Nat :=
  cs.foldl (fun a c => a * 10 + (c.toNat - 48)) 0

/-- Python int(s) on a str: strip surrounding whitespace, optional sign,
then a valid digit body; None models the ValueError on failure. -/
def pyStrToInt (s : String) : Option Int :=
  match pyStrip s.data with
  | '+' :: rest =>
    if validUDigits rest then some ((digitsVal (rest.filter Char.isDigit) : Int)) else none
  | '-' :: rest =>
    if validUDigits rest then some (-(digitsVal (rest.filter Char.isDigit) : Int)) else none
  | rest =>
    if validUDigits rest then some ((digitsVal (rest.filter Char.isDigit) : Int)) else none

/-- Python int(value) for the values that occur here: an int passes
through, a str is parsed, None fails (with TypeError, see convertLoop). -/
def pyInt : PyVal → Option Int
  | PyVal.int n => some n
  | PyVal.str s => pyStrToInt s
  | PyVal.null => none

/-- The test that value is among the int 0, the string 0 and the empty
string (Python equality: 0 matches only the int 0, the two strings match
only themselves, None matches nothing in that list). -/
def trimMatch : PyVal → Bool
  | PyVal.int n => decide (n = 0)
  | PyVal.str s => decide (s = "0") || decide (s = "")
  | PyVal.null => false

/-- needle occurs at the front of hay. -/
def matchesFront : List Char → List Char → Bool
  | [], _ => true
  | _ :: _, [] => false
  | a :: as, b :: bs => (if a = b then true else false) && matchesFront as bs

/-- needle occurs somewhere in hay (Python substring containment). -/
def occursIn : List Char → List Char → Bool
  | needle, [] => matchesFront needle []
  | needle, b :: bs => matchesFront needle (b :: bs) || occursIn needle bs

/-- The Python test `needle in hay` on strings. -/
def pyContains (needle hay : String) : Bool := occursIn needle.data hay.data

/-- Python str.lower() (character-wise, as the program only lowers ASCII). -/
def pyLower (s : String) : String := String.mk (s.data.map Char.toLower)

/-- The membership test of the string INTEGER in value_type, from
__convert_values. -/
def hasINTEGER (value_type : String) : Bool := pyContains "INTEGER" value_type

/-- The loop body of __convert_values over the remaining items of in_dict,
carrying out_dict. Looking up current_schema[key] raises KeyError when
absent; int(None) raises TypeError; int(str) failure is the caught
ValueError branch. -/
def convertLoop (trim : Bool) (current_schema : List (String × String)) :
    List (String × PyVal) → List (String × PyVal) → Except PyErr (List (String × PyVal))
  | out_dict, [] => Except.ok out_dict
  | out_dict, (key, value) :: rest =>
    match dictGet? current_schema key with
    | none => Except.error (PyErr.keyError key)
    | some value_type =>
      if trim && trimMatch value then
        convertLoop trim current_schema out_dict rest
      else if hasINTEGER value_type then
        match pyInt value with
        | some n => convertLoop trim current_schema (dictInsert out_dict key (PyVal.int n)) rest
        | none =>
          match value with
          | PyVal.str s =>
            if s = "" then
              convertLoop trim current_schema (dictInsert out_dict key PyVal.null) rest
            else
              convertLoop trim current_schema out_dict rest
          | _ => Except.error (PyErr.typeError "int() argument")
      else
        convertLoop trim current_schema (dictInsert out_dict key value) rest

/-- __convert_values(in_dict, current_schema): builds out_dict by the
per-field policy of the source (trim check, INTEGER coercion, pass-through). -/
def convert_values (trim : Bool) (in_dict : List (String × PyVal))
    (current_schema : List (String × String)) : Except PyErr (List (String × PyVal)) :=
  convertLoop trim current_schema [] in_dict

/-- __get_record_type(file_name): 1 when the lowered name contains cdr,
else 2 when it contains cmr, else 0. -/
def get_record_type (file_name : String) : Nat :=
  if pyContains "cdr" (pyLower file_name) then 1
  else if pyContains "cmr" (pyLower file_name) then 2
  else 0

/-- One line handed out by the csv reader: either its decoded fields, or a
UnicodeDecodeError raised while reading it. -/
inductive RawRow where
  | ok (fields : List String)
  | decodeFail
deriving DecidableEq, Repr

/-- A matched input file: its name and its stream of csv rows. -/
structure CDRFile where
  name : String
  rows : List RawRow
deriving DecidableEq, Repr

/-- The mutable state of a CDRProcessor instance: __data_schema (keyed by
record type), __data_list, __file_list. -/
structure PState where
  data_schema : List (Nat × List (String × String))
  data_list : List (List (String × PyVal))
  file_list : List String
deriving DecidableEq, Repr

/-- The two clear() calls at the top of process_directory: __data_schema
and __data_list are emptied; __file_list is left untouched. -/
def resetState (st : PState) : PState :=
  { st with data_schema := [], data_list := [] }

/-- The row loop of process_directory: each decoded row is zipped against
file_schema.keys(), converted and appended. A row that fails to decode
raises UnicodeDecodeError, whose except-handler evaluates the undefined
name `reader` and therefore raises NameError, abandoning the rest of the
stream. Returns the appended items and the uncaught exception, if any. -/
def rowLoop (trim : Bool) (file_schema : List (String × String)) :
    List (List (String × PyVal)) → List RawRow →
      List (List (String × PyVal)) × Option PyErr
  | acc, [] => (acc, none)
  | acc, RawRow.decodeFail :: _ => (acc, some (PyErr.nameError "reader"))
  | acc, RawRow.ok row :: rest =>
    match convert_values trim (dictOfZip (dictKeys file_schema) (row.map PyVal.str))
        file_schema with
    | Except.error e => (acc, some e)
    | Except.ok data_item => rowLoop trim file_schema (acc ++ [data_item]) rest

/-- The per-file body of process_directory: read the two header lines
(StopIteration when missing, UnicodeDecodeError uncaught when they fail to
decode), build file_schema from them, store it for the record type only
when unseen, run the row loop, and append the file name only when no
exception escaped. -/
def processFile (trim : Bool) (st : PState) (f : CDRFile) : PState × Option PyErr :=
  let record_type := get_record_type f.name
  match f.rows with
  | [] => (st, some PyErr.stopIteration)
  | RawRow.decodeFail :: _ => (st, some PyErr.unicodeDecodeError)
  | RawRow.ok _ :: [] => (st, some PyErr.stopIteration)
  | RawRow.ok _ :: RawRow.decodeFail :: _ => (st, some PyErr.unicodeDecodeError)
  | RawRow.ok header_name_list :: RawRow.ok header_type_list :: dataRows =>
    let file_schema := dictOfZip header_name_list header_type_list
    let data_schema1 :=
      if dictHasKey st.data_schema record_type then st.data_schema
      else dictInsert st.data_schema record_type file_schema
    match rowLoop trim file_schema [] dataRows with
    | (items, none) =>
      ({ data_schema := data_schema1,
         data_list := st.data_list ++ items,
         file_list := st.file_list ++ [f.name] }, none)
    | (items, some e) =>
      ({ data_schema := data_schema1,
         data_list := st.data_list ++ items,
         file_list := st.file_list }, some e)

/-- The file loop of process_directory: files in listing order, stopping
at the first uncaught exception. -/
def runFiles (trim : Bool) : PState → List CDRFile → PState × Option PyErr
  | st, [] => (st, none)
  | st, f :: rest =>
    match processFile trim st f with
    | (st1, none) => runFiles trim st1 rest
    | (st1, some e) => (st1, some e)

/-- process_directory(): clear __data_schema and __data_list, then process
the matched files in listing order. -/
def process_directory (trim : Bool) (st : PState) (files : List CDRFile) :
    PState × Option PyErr :=
  runFiles trim (resetState st) files

/-- The dictionary returned by get_data: the data list under KEY_DATA and
the schema map under KEY_SCHEMAS. -/
structure ResultDict where
  data : List (List (String × PyVal))
  schemas : List (Nat × List (String × String))
deriving DecidableEq, Repr

/-- get_data(): raise when __data_list is empty, else return the data list
and schema map. -/
def get_data (st : PState) : Except PyErr ResultDict :=
  if st.data_list.length = 0 then
    Except.error (PyErr.exception "No data. Was process_directory() run?")
  else
    Except.ok { data := st.data_list, schemas := st.data_schema }

/-- Derived description of the per-field outcome of __convert_values: none
means the field is omitted, some w means it is stored with value w. Only
consulted for non-None values, where it agrees with convertLoop. -/
def fieldOutcome (trim : Bool) (value_type : String) (v : PyVal) : Option PyVal :=
  if trim && trimMatch v then none
  else if hasINTEGER value_type then
    match pyInt v with
    | some n => some (PyVal.int n)
    | none => if v = PyVal.str "" then some PyVal.null else none
  else some v

/-- Recognizer for string values (every csv row field is one). -/
def isStr : PyVal → Bool
  | PyVal.str _ => true
  | _ => false

/-- Lookup after insertion at the same key. -/
theorem dictGet?_insert_self {κ α : Type} [DecidableEq κ] (d : List (κ × α)) (k : κ) (v : α) :
    dictGet? (dictInsert d k v) k = some v := by
  induction d with
  | nil => simp [dictInsert, dictGet?]
  | cons p rest ih =>
    obtain ⟨k1, v1⟩ := p
    by_cases h : k1 = k
    · simp [dictInsert, dictGet?, h]
    · simp [dictInsert, dictGet?, h, ih]

/-- Lookup after insertion at a different key. -/
theorem dictGet?_insert_ne {κ α : Type} [DecidableEq κ] (d : List (κ × α)) (k : κ) (v : α)
    (k2 : κ) (h : k2 ≠ k) : dictGet? (dictInsert d k v) k2 = dictGet? d k2 := by
  induction d with
  | nil => simp [dictInsert, dictGet?, Ne.symm h]
  | cons p rest ih =>
    obtain ⟨k1, v1⟩ := p
    by_cases h1 : k1 = k
    · subst h1
      simp [dictInsert, dictGet?, Ne.symm h]
    · by_cases h2 : k1 = k2
      · simp [dictInsert, dictGet?, h1, h2, h]
      · simp [dictInsert, dictGet?, h1, h2, ih]

/-- A key is in the key list exactly when lookup succeeds. -/
theorem mem_keys_iff_isSome {κ α : Type} [DecidableEq κ] (d : List (κ × α)) (k : κ) :
    k ∈ dictKeys d ↔ (dictGet? d k).isSome = true := by
  induction d with
  | nil => simp [dictKeys, dictGet?]
  | cons p rest ih =>
    obtain ⟨k1, v1⟩ := p
    by_cases h : k1 = k
    · subst h
      simp [dictKeys, dictGet?]
    · simp only [dictKeys, List.map_cons, List.mem_cons]
      rw [show dictGet? ((k1, v1) :: rest) k = dictGet? rest k from by simp [dictGet?, h]]
      rw [← ih]
      simp [dictKeys, Ne.symm h]

/-- Lookup fails exactly when the key is absent. -/
theorem dictGet?_eq_none_iff {κ α : Type} [DecidableEq κ] (d : List (κ × α)) (k : κ) :
    dictGet? d k = none ↔ k ∉ dictKeys d := by
  rw [mem_keys_iff_isSome]
  cases dictGet? d k <;> simp

/-- Inserting an absent key appends the pair. -/
theorem dictInsert_of_not_mem {κ α : Type} [DecidableEq κ] (d : List (κ × α)) (k : κ) (v : α)
    (h : k ∉ dictKeys d) : dictInsert d k v = d ++ [(k, v)] := by
  induction d with
  | nil => simp [dictInsert]
  | cons p rest ih =>
    obtain ⟨k1, v1⟩ := p
    simp only [dictKeys, List.map_cons, List.mem_cons] at h
    push_neg at h
    simp [dictInsert, Ne.symm h.1, ih h.2]

/-- Membership in an insertion result. -/
theorem mem_dictInsert {κ α : Type} [DecidableEq κ] (d : List (κ × α)) (k : κ) (v : α)
    (p : κ × α) (h : p ∈ dictInsert d k v) : p ∈ d ∨ p = (k, v) := by
  induction d with
  | nil =>
    simp [dictInsert] at h
    right
    exact h
  | cons q rest ih =>
    obtain ⟨k1, v1⟩ := q
    by_cases h1 : k1 = k
    · simp [dictInsert, h1] at h
      rcases h with h | h
      · right
        exact h
      · left
        simp [h]
    · simp only [dictInsert, if_neg h1, List.mem_cons] at h
      rcases h with h | h
      · left
        simp [h]
      · rcases ih h with h2 | h2
        · left
          simp [h2]
        · right
          exact h2

/-- A key of an insertion result is the inserted key or an old key. -/
theorem mem_keys_dictInsert {κ α : Type} [DecidableEq κ] (d : List (κ × α)) (k : κ) (v : α)
    (k2 : κ) (h : k2 ∈ dictKeys (dictInsert d k v)) : k2 ∈ dictKeys d ∨ k2 = k := by
  rcases List.mem_map.mp h with ⟨p, hp, hpe⟩
  rcases mem_dictInsert d k v p hp with h2 | h2
  · left
    exact hpe ▸ List.mem_map_of_mem Prod.fst h2
  · right
    rw [← hpe, h2]

/-- Membership in a left fold of insertions. -/
theorem mem_foldl_insert {κ α : Type} [DecidableEq κ] (l : List (κ × α)) :
    ∀ (acc : List (κ × α)) (p : κ × α),
      p ∈ l.foldl (fun d q => dictInsert d q.1 q.2) acc → p ∈ acc ∨ p ∈ l := by
  induction l with
  | nil =>
    intro acc p h
    simp at h
    left
    exact h
  | cons q rest ih =>
    intro acc p h
    simp only [List.foldl_cons] at h
    rcases ih (dictInsert acc q.1 q.2) p h with h1 | h1
    · rcases mem_dictInsert acc q.1 q.2 p h1 with h2 | h2
      · left
        exact h2
      · right
        simp [h2]
    · right
      simp [h1]

/-- Every pair of dict(zip(ks, vs)) has its key from ks and value from vs. -/
theorem mem_dictOfZip {κ α : Type} [DecidableEq κ] (ks : List κ) (vs : List α)
    (p : κ × α) (h : p ∈ dictOfZip ks vs) : p.1 ∈ ks ∧ p.2 ∈ vs := by
  rcases mem_foldl_insert _ _ _ h with h1 | h1
  · simp at h1
  · obtain ⟨a, b⟩ := p
    exact List.of_mem_zip h1

/-- Keys of dict(zip(ks, vs)) come from ks. -/
theorem mem_keys_dictOfZip {κ α : Type} [DecidableEq κ] (ks : List κ) (vs : List α)
    (k : κ) (h : k ∈ dictKeys (dictOfZip ks vs)) : k ∈ ks := by
  rcases List.mem_map.mp h with ⟨p, hp, hpe⟩
  exact hpe ▸ (mem_dictOfZip ks vs p hp).1

/-- When the keys being inserted are fresh and distinct, a fold of
insertions is a plain append. -/
theorem foldl_insert_eq_append {κ α : Type} [DecidableEq κ] (l : List (κ × α)) :
    ∀ acc : List (κ × α), (∀ p ∈ l, p.1 ∉ dictKeys acc) → (l.map Prod.fst).Nodup →
      l.foldl (fun d q => dictInsert d q.1 q.2) acc = acc ++ l := by
  induction l with
  | nil =>
    intro acc _ _
    simp
  | cons q rest ih =>
    intro acc hd hnd
    simp only [List.map_cons, List.nodup_cons] at hnd
    have hq : q.1 ∉ dictKeys acc := hd q (by simp)
    have hstep : dictInsert acc q.1 q.2 = acc ++ [(q.1, q.2)] :=
      dictInsert_of_not_mem acc q.1 q.2 hq
    have hrest : ∀ p ∈ rest, p.1 ∉ dictKeys (acc ++ [(q.1, q.2)]) := by
      intro p hp hmem
      simp only [dictKeys, List.map_append, List.map_cons, List.map_nil,
        List.mem_append, List.mem_singleton] at hmem
      rcases hmem with hm | hm
      · exact hd p (by simp [hp]) hm
      · exact hnd.1 (hm ▸ List.mem_map_of_mem Prod.fst hp)
    rw [List.foldl_cons, hstep, ih (acc ++ [(q.1, q.2)]) hrest hnd.2]
    simp

/-- The first components of zip ks vs are the first vs.length entries of ks. -/
theorem map_fst_zip_eq_take {κ α : Type} (ks : List κ) :
    ∀ vs : List α, (List.zip ks vs).map Prod.fst = ks.take vs.length := by
  induction ks with
  | nil =>
    intro vs
    simp
  | cons k rest ih =>
    intro vs
    cases vs with
    | nil => simp
    | cons v vr => simp [ih]

/-- Taking n entries is the same as taking min length n entries. -/
theorem take_length_min {α : Type} (ks : List α) (n : Nat) :
    ks.take n = ks.take (min ks.length n) := by
  rcases le_total n ks.length with h | h
  · rw [min_eq_right h]
  · rw [min_eq_left h, List.take_of_length_le h, List.take_length]

/-- With distinct paired keys, dict(zip(ks, vs)) is exactly zip ks vs. -/
theorem dictOfZip_eq_zip {κ α : Type} [DecidableEq κ] (ks : List κ) (vs : List α)
    (hnd : ((List.zip ks vs).map Prod.fst).Nodup) :
    dictOfZip ks vs = List.zip ks vs := by
  unfold dictOfZip
  rw [foldl_insert_eq_append (List.zip ks vs) [] (by simp [dictKeys]) hnd]
  simp

/-- Claim C7 (amended: the header field names being paired must be
distinct, else the dict collapses duplicates): pairing the field-name row
with the field-type row yields a Schema whose field order is the order of
names in the header line and whose size is min of the two lengths,
trailing unmatched entries being dropped. -/
theorem C7_schema_pairing (header_name_list header_type_list : List String)
    (hnd : (header_name_list.take header_type_list.length).Nodup) :
    dictKeys (dictOfZip header_name_list header_type_list) =
      header_name_list.take (min header_name_list.length header_type_list.length) ∧
    (dictOfZip header_name_list header_type_list).length =
      min header_name_list.length header_type_list.length := by
  have hmap := map_fst_zip_eq_take header_name_list header_type_list
  have heq : dictOfZip header_name_list header_type_list =
      List.zip header_name_list header_type_list :=
    dictOfZip_eq_zip _ _ (by rw [hmap]; exact hnd)
  constructor
  · rw [heq]
    show (List.zip header_name_list header_type_list).map Prod.fst = _
    rw [hmap, ← take_length_min]
  · rw [heq]
    exact List.length_zip header_name_list header_type_list

/-- Claim C7, the original universal statement is false: a header line
with a repeated field name collapses in the dict, so the Schema size falls
short of min and the key order is not the header order. -/
theorem C7_counterexample :
    ¬ (dictKeys (dictOfZip ["a", "a"] ["INTEGER", "STRING"]) = ["a", "a"] ∧
       (dictOfZip ["a", "a"] ["INTEGER", "STRING"]).length =
         min (["a", "a"].length) (["INTEGER", "STRING"].length)) := by decide

/-- Witness for C7: a concrete header pair with distinct names and a
shorter type row. -/
theorem C7_witness :
    (["a", "b"].take (["X"].length)).Nodup ∧
    (dictKeys (dictOfZip ["a", "b"] ["X"]) =
      ["a", "b"].take (min (["a", "b"].length) (["X"].length)) ∧
    (dictOfZip ["a", "b"] ["X"]).length =
      min (["a", "b"].length) (["X"].length)) :=
  ⟨by decide, C7_schema_pairing ["a", "b"] ["X"] (by decide)⟩

/-- Claim C9: the record classifier returns 1 exactly when the lowered
name contains cdr, 2 exactly when it contains cmr but not cdr, and 0
exactly when it contains neither; cdr takes priority when both appear. -/
theorem C9_record_classifier (file_name : String) :
    (get_record_type file_name = 1 ↔ pyContains "cdr" (pyLower file_name) = true) ∧
    (get_record_type file_name = 2 ↔
      (pyContains "cdr" (pyLower file_name) = false ∧
       pyContains "cmr" (pyLower file_name) = true)) ∧
    (get_record_type file_name = 0 ↔
      (pyContains "cdr" (pyLower file_name) = false ∧
       pyContains "cmr" (pyLower file_name) = false)) := by
  unfold get_record_type
  by_cases h1 : pyContains "cdr" (pyLower file_name) = true
  · simp [h1]
  · by_cases h2 : pyContains "cmr" (pyLower file_name) = true
    · simp [h1, h2]
    · simp [h1, h2]

/-- Claim C6: get_data raises exactly when the record list is empty, and
otherwise returns the accumulated record list together with the schema
map; in particular it raises on a fresh instance and after a run over zero
matched files. -/
theorem C6_get_data :
    (∀ st : PState, (∃ e, get_data st = Except.error e) ↔ st.data_list = []) ∧
    (∀ st : PState, st.data_list ≠ [] →
      get_data st = Except.ok ⟨st.data_list, st.data_schema⟩) ∧
    (∀ (trim : Bool) (st : PState), ∃ e,
      get_data (process_directory trim st []).1 = Except.error e) ∧
    (∃ e, get_data (PState.mk [] [] []) = Except.error e) := by
  have hbase : ∀ st : PState, (∃ e, get_data st = Except.error e) ↔ st.data_list = [] := by
    intro st
    unfold get_data
    by_cases h : st.data_list.length = 0
    · simp [h, List.length_eq_zero.mp h]
    · have : st.data_list ≠ [] := by
        intro he
        exact h (by simp [he])
      simp [h, this]
  refine ⟨hbase, ?_, ?_, ?_⟩
  · intro st h
    unfold get_data
    have : ¬ st.data_list.length = 0 := by
      intro he
      exact h (List.length_eq_zero.mp he)
    simp [this]
  · intro trim st
    refine (hbase _).mpr ?_
    simp [process_directory, runFiles, resetState]
  · exact (hbase _).mpr rfl

/-- Witness for C6: a state holding one record yields exactly that record
and schema map from get_data. -/
theorem C6_witness :
    get_data (PState.mk [] [[("a", PyVal.int 1)]] []) =
      Except.ok ⟨[[("a", PyVal.int 1)]], []⟩ :=
  C6_get_data.2.1 (PState.mk [] [[("a", PyVal.int 1)]] []) (by decide)

/-- The file loop over an appended list runs the first part, then the
second only when no exception escaped. -/
theorem runFiles_append (trim : Bool) (l1 l2 : List CDRFile) :
    ∀ st : PState,
      runFiles trim st (l1 ++ l2) =
        match runFiles trim st l1 with
        | (st1, none) => runFiles trim st1 l2
        | (st1, some e) => (st1, some e) := by
  induction l1 with
  | nil =>
    intro st
    simp [runFiles]
  | cons f rest ih =>
    intro st
    simp only [List.cons_append, runFiles]
    cases processFile trim st f with
    | mk st1 oe =>
      cases oe with
      | none => exact ih st1
      | some e => rfl

/-- processFile only appends to the file list and never reads it; the
other state components do not depend on the incoming file list. -/
theorem processFile_file_list (trim : Bool) (ds : List (Nat × List (String × String)))
    (dl : List (List (String × PyVal))) (fl : List String) (f : CDRFile) :
    processFile trim (PState.mk ds dl fl) f =
      (PState.mk (processFile trim (PState.mk ds dl []) f).1.data_schema
        (processFile trim (PState.mk ds dl []) f).1.data_list
        (fl ++ (processFile trim (PState.mk ds dl []) f).1.file_list),
       (processFile trim (PState.mk ds dl []) f).2) := by
  obtain ⟨fname, rows⟩ := f
  match rows with
  | [] => simp [processFile]
  | RawRow.decodeFail :: rest => simp [processFile]
  | [RawRow.ok a] => simp [processFile]
  | RawRow.ok a :: RawRow.decodeFail :: rest => simp [processFile]
  | RawRow.ok a :: RawRow.ok b :: dataRows =>
    simp only [processFile]
    cases hr : rowLoop trim (dictOfZip a b) [] dataRows with
    | mk items oe =>
      cases oe with
      | none => simp
      | some e => simp

/-- The file loop also only appends to the file list. -/
theorem runFiles_file_list (trim : Bool) (files : List CDRFile) :
    ∀ ds dl fl,
      runFiles trim (PState.mk ds dl fl) files =
        (PState.mk (runFiles trim (PState.mk ds dl []) files).1.data_schema
          (runFiles trim (PState.mk ds dl []) files).1.data_list
          (fl ++ (runFiles trim (PState.mk ds dl []) files).1.file_list),
         (runFiles trim (PState.mk ds dl []) files).2) := by
  induction files with
  | nil =>
    intro ds dl fl
    simp [runFiles]
  | cons f rest ih =>
    intro ds dl fl
    simp only [runFiles]
    rw [processFile_file_list trim ds dl fl f]
    cases hp : processFile trim (PState.mk ds dl []) f with
    | mk st0 oe =>
      obtain ⟨ds0, dl0, fl0⟩ := st0
      cases oe with
      | some e => simp
      | none =>
        simp only
        rw [ih ds0 dl0 (fl ++ fl0), ih ds0 dl0 fl0]
        simp [List.append_assoc]

/-- processFile never removes or replaces an existing schema entry. -/
theorem processFile_schema_mono (trim : Bool) (st : PState) (f : CDRFile) (r : Nat)
    (s : List (String × String)) (h : dictGet? st.data_schema r = some s) :
    dictGet? (processFile trim st f).1.data_schema r = some s := by
  obtain ⟨fname, rows⟩ := f
  match rows with
  | [] => simpa [processFile] using h
  | RawRow.decodeFail :: rest => simpa [processFile] using h
  | [RawRow.ok a] => simpa [processFile] using h
  | RawRow.ok a :: RawRow.decodeFail :: rest => simpa [processFile] using h
  | RawRow.ok a :: RawRow.ok b :: dataRows =>
    simp only [processFile]
    have hgoal : dictGet?
        (if dictHasKey st.data_schema (get_record_type fname) then st.data_schema
         else dictInsert st.data_schema (get_record_type fname) (dictOfZip a b)) r =
        some s := by
      by_cases hh : dictHasKey st.data_schema (get_record_type fname) = true
      · simp [hh, h]
      · have hne : r ≠ get_record_type fname := by
          intro he
          apply hh
          unfold dictHasKey
          rw [← he, h]
          rfl
        rw [if_neg hh, dictGet?_insert_ne _ _ _ _ hne]
        exact h
    cases hr : rowLoop trim (dictOfZip a b) [] dataRows with
    | mk items oe =>
      cases oe <;> simpa using hgoal

/-- The file loop never removes or replaces an existing schema entry. -/
theorem runFiles_schema_mono (trim : Bool) (files : List CDRFile) :
    ∀ (st : PState) (r : Nat) (s : List (String × String)),
      dictGet? st.data_schema r = some s →
      dictGet? (runFiles trim st files).1.data_schema r = some s := by
  induction files with
  | nil =>
    intro st r s h
    simpa [runFiles] using h
  | cons f rest ih =>
    intro st r s h
    simp only [runFiles]
    cases hp : processFile trim st f with
    | mk st1 oe =>
      have h1 : dictGet? st1.data_schema r = some s := by
        have h2 := processFile_schema_mono trim st f r s h
        rw [hp] at h2
        exact h2
      cases oe with
      | none => exact ih st1 r s h1
      | some e => simpa using h1

/-- Claim C8: once a Schema is stored for a RecordType at any point of a
process_directory run, processing the remaining files never overrides it,
whatever their headers are. -/
theorem C8_first_schema_wins (trim : Bool) (st : PState) (pre post : List CDRFile)
    (r : Nat) (s : List (String × String))
    (h : dictGet? (runFiles trim (resetState st) pre).1.data_schema r = some s) :
    dictGet? (runFiles trim (resetState st) (pre ++ post)).1.data_schema r = some s := by
  rw [runFiles_append trim pre post (resetState st)]
  cases hq : runFiles trim (resetState st) pre with
  | mk st1 oe =>
    rw [hq] at h
    cases oe with
    | none => exact runFiles_schema_mono trim post st1 r s h
    | some e => simpa using h

/-- Witness for C8: the schema of a first cdr file survives a second cdr
file with a different header. -/
theorem C8_witness :
    dictGet? (runFiles false (resetState (PState.mk [] [] []))
      [CDRFile.mk "cdr1" [RawRow.ok ["a"], RawRow.ok ["INTEGER"]]]).1.data_schema 1 =
      some [("a", "INTEGER")] ∧
    dictGet? (runFiles false (resetState (PState.mk [] [] []))
      ([CDRFile.mk "cdr1" [RawRow.ok ["a"], RawRow.ok ["INTEGER"]]] ++
       [CDRFile.mk "cdr2" [RawRow.ok ["b"], RawRow.ok ["STRING"]]])).1.data_schema 1 =
      some [("a", "INTEGER")] :=
  ⟨by decide,
   C8_first_schema_wins false (PState.mk [] [] [])
     [CDRFile.mk "cdr1" [RawRow.ok ["a"], RawRow.ok ["INTEGER"]]]
     [CDRFile.mk "cdr2" [RawRow.ok ["b"], RawRow.ok ["STRING"]]]
     1 [("a", "INTEGER")] (by decide)⟩

/-- Claim C10: a matched file with fewer than two decodable lines makes
the header reads raise StopIteration, which is uncaught: the run stops
with the state it had before that file, and later files are untouched. -/
theorem C10_short_file_aborts_run (trim : Bool) (st : PState) (pre : List CDRFile)
    (f : CDRFile) (post : List CDRFile)
    (hpre : (runFiles trim (resetState st) pre).2 = none)
    (hshort : f.rows.length < 2)
    (hok : ∀ r ∈ f.rows, r ≠ RawRow.decodeFail) :
    process_directory trim st (pre ++ f :: post) =
      ((runFiles trim (resetState st) pre).1, some PyErr.stopIteration) := by
  unfold process_directory
  rw [runFiles_append trim pre (f :: post) (resetState st)]
  cases hq : runFiles trim (resetState st) pre with
  | mk st1 oe =>
    rw [hq] at hpre
    simp only at hpre
    subst hpre
    have hf : processFile trim st1 f = (st1, some PyErr.stopIteration) := by
      obtain ⟨fname, rows⟩ := f
      cases rows with
      | nil => simp [processFile]
      | cons r0 rest =>
        cases rest with
        | nil =>
          cases r0 with
          | ok a => simp [processFile]
          | decodeFail => exact absurd rfl (hok RawRow.decodeFail (by simp))
        | cons r1 rest2 =>
          exfalso
          have h2 : (r0 :: r1 :: rest2).length = rest2.length + 1 + 1 := by
            rw [List.length_cons, List.length_cons]
          simp only [] at hshort
          omega
    simp only [runFiles, hf]

/-- Witness for C10: a one-line cdr file aborts the run before a later
well-formed file. -/
theorem C10_witness :
    process_directory false (PState.mk [] [] [])
      ([] ++ CDRFile.mk "cdr0" [RawRow.ok ["a"]] ::
        [CDRFile.mk "cdr2" [RawRow.ok ["b"], RawRow.ok ["T"], RawRow.ok ["x"]]]) =
      ((runFiles false (resetState (PState.mk [] [] [])) []).1,
       some PyErr.stopIteration) :=
  C10_short_file_aborts_run false (PState.mk [] [] []) []
    (CDRFile.mk "cdr0" [RawRow.ok ["a"]])
    [CDRFile.mk "cdr2" [RawRow.ok ["b"], RawRow.ok ["T"], RawRow.ok ["x"]]]
    (by decide) (by decide) (by decide)

/-- Claim C2 (the code contradicts it): when a data row raises
UnicodeDecodeError, the except handler evaluates the undefined name
reader, so a NameError escapes process_directory: the rows read so far
are kept, the file is not recorded in the file list, and the following
file is never processed. -/
theorem C2_decode_error_raises_nameerror :
    process_directory false (PState.mk [] [] [])
      [CDRFile.mk "cdr1" [RawRow.ok ["a"], RawRow.ok ["INTEGER"], RawRow.ok ["5"],
         RawRow.decodeFail, RawRow.ok ["7"]],
       CDRFile.mk "cdr2" [RawRow.ok ["b"], RawRow.ok ["T"], RawRow.ok ["x"]]] =
      (PState.mk [(1, [("a", "INTEGER")])] [[("a", PyVal.int 5)]] [],
       some (PyErr.nameError "reader")) := by decide

/-- Claim C3 (amended: only __data_schema and __data_list are reset at the
start of a run; __file_list is never cleared): a second run over the same
files reproduces the schema map, the record list, the exception outcome
and the get_data result of the first run, while the processed-file list
grows by the same batch of names again. -/
theorem C3_second_run (trim : Bool) (st : PState) (files : List CDRFile) :
    (process_directory trim (process_directory trim st files).1 files).1.data_schema =
      (process_directory trim st files).1.data_schema ∧
    (process_directory trim (process_directory trim st files).1 files).1.data_list =
      (process_directory trim st files).1.data_list ∧
    (process_directory trim (process_directory trim st files).1 files).2 =
      (process_directory trim st files).2 ∧
    get_data (process_directory trim (process_directory trim st files).1 files).1 =
      get_data (process_directory trim st files).1 ∧
    ∃ delta,
      (process_directory trim st files).1.file_list = st.file_list ++ delta ∧
      (process_directory trim (process_directory trim st files).1 files).1.file_list =
        (process_directory trim st files).1.file_list ++ delta := by
  obtain ⟨ds, dl, fl⟩ := st
  cases hR : runFiles trim (PState.mk [] [] []) files with
  | mk st0 re =>
    obtain ⟨rds, rdl, rf0⟩ := st0
    have h1 := runFiles_file_list trim files [] [] fl
    rw [hR] at h1
    simp only at h1
    have e1 : process_directory trim (PState.mk ds dl fl) files =
        (PState.mk rds rdl (fl ++ rf0), re) := by
      show runFiles trim (resetState (PState.mk ds dl fl)) files = _
      exact h1
    have h2 := runFiles_file_list trim files [] [] (fl ++ rf0)
    rw [hR] at h2
    simp only at h2
    have e2 : process_directory trim (PState.mk rds rdl (fl ++ rf0)) files =
        (PState.mk rds rdl ((fl ++ rf0) ++ rf0), re) := by
      show runFiles trim (resetState (PState.mk rds rdl (fl ++ rf0))) files = _
      exact h2
    rw [e1]
    simp only
    rw [e2]
    refine ⟨rfl, rfl, rfl, rfl, rf0, rfl, rfl⟩

/-- Claim C3, original statement false: two runs do not leave the
instance in the state of one run, because the processed-file list is not
reset and receives the file names a second time. -/
theorem C3_counterexample :
    (process_directory false
        (process_directory false (PState.mk [] [] [])
          [CDRFile.mk "cdr1" [RawRow.ok ["a"], RawRow.ok ["T"]]]).1
        [CDRFile.mk "cdr1" [RawRow.ok ["a"], RawRow.ok ["T"]]]).1 ≠
      (process_directory false (PState.mk [] [] [])
        [CDRFile.mk "cdr1" [RawRow.ok ["a"], RawRow.ok ["T"]]]).1 := by decide

/-- int("") fails in Python. -/
theorem pyStrToInt_empty : pyStrToInt "" = none := by decide

/-- One step of the conversion loop: for a non-None value whose key has a
schema entry, the head field updates the accumulator exactly as
fieldOutcome describes, then the loop continues on the rest. -/
theorem convertLoop_step (trim : Bool) (schema : List (String × String))
    (key : String) (value : PyVal) (rest out : List (String × PyVal)) (ty0 : String)
    (hty0 : dictGet? schema key = some ty0) (hnn : value ≠ PyVal.null) :
    convertLoop trim schema out ((key, value) :: rest) =
      convertLoop trim schema
        (match fieldOutcome trim ty0 value with
         | some w => dictInsert out key w
         | none => out) rest := by
  by_cases htr : (trim && trimMatch value) = true
  · simp [convertLoop, hty0, htr, fieldOutcome]
  · by_cases hint : hasINTEGER ty0 = true
    · cases hpi : pyInt value with
      | some n => simp [convertLoop, hty0, htr, hint, hpi, fieldOutcome]
      | none =>
        rcases value with n | s | h
        · simp [pyInt] at hpi
        · by_cases hse : s = ""
          · subst hse
            simp [convertLoop, hty0, htr, hint, hpi, fieldOutcome]
          · simp [convertLoop, hty0, htr, hint, hpi, hse, fieldOutcome]
        · exact absurd rfl hnn
    · simp [convertLoop, hty0, htr, hint, fieldOutcome]

/-- The conversion loop succeeds on schema-covered non-None fields, and a
key outside the remaining input keeps its accumulator entry. -/
theorem convertLoop_ok_and_pres (trim : Bool) (schema : List (String × String))
    (d : List (String × PyVal)) :
    ∀ out : List (String × PyVal),
      (∀ kv ∈ d, (dictGet? schema kv.1).isSome = true) →
      (∀ kv ∈ d, kv.2 ≠ PyVal.null) →
      ∃ fin, convertLoop trim schema out d = Except.ok fin ∧
        ∀ k, k ∉ dictKeys d → dictGet? fin k = dictGet? out k := by
  induction d with
  | nil =>
    intro out _ _
    exact ⟨out, rfl, fun k _ => rfl⟩
  | cons kv rest ih =>
    obtain ⟨key, value⟩ := kv
    intro out hkeys hnull
    obtain ⟨ty0, hty0⟩ := Option.isSome_iff_exists.mp (hkeys (key, value) (by simp))
    have hnn : value ≠ PyVal.null := hnull (key, value) (by simp)
    rw [convertLoop_step trim schema key value rest out ty0 hty0 hnn]
    obtain ⟨fin, heq, hp⟩ := ih
      (match fieldOutcome trim ty0 value with
       | some w => dictInsert out key w
       | none => out)
      (fun kv h => hkeys kv (by simp [h])) (fun kv h => hnull kv (by simp [h]))
    refine ⟨fin, heq, ?_⟩
    intro k hk
    simp only [dictKeys, List.map_cons, List.mem_cons] at hk
    push_neg at hk
    rw [hp k hk.2]
    cases fieldOutcome trim ty0 value with
    | none => rfl
    | some w => exact dictGet?_insert_ne out key w k hk.1

/-- The conversion loop stores for each input field exactly the value
fieldOutcome gives, when the input keys are distinct, schema-covered, and
the values are not None. -/
theorem convertLoop_lookup (trim : Bool) (schema : List (String × String))
    (d : List (String × PyVal)) :
    ∀ (out : List (String × PyVal)) (k : String) (v : PyVal) (ty : String),
      (k, v) ∈ d → (dictKeys d).Nodup →
      (∀ kv ∈ d, (dictGet? schema kv.1).isSome = true) →
      (∀ kv ∈ d, kv.2 ≠ PyVal.null) →
      dictGet? schema k = some ty →
      ∃ fin, convertLoop trim schema out d = Except.ok fin ∧
        dictGet? fin k = (match fieldOutcome trim ty v with
                          | some w => some w
                          | none => dictGet? out k) := by
  induction d with
  | nil =>
    intro out k v ty hmem
    simp at hmem
  | cons kv rest ih =>
    obtain ⟨key, value⟩ := kv
    intro out k v ty hmem hnodup hkeys hnull hty
    obtain ⟨ty0, hty0⟩ := Option.isSome_iff_exists.mp (hkeys (key, value) (by simp))
    have hnn : value ≠ PyVal.null := hnull (key, value) (by simp)
    rw [convertLoop_step trim schema key value rest out ty0 hty0 hnn]
    simp only [dictKeys, List.map_cons, List.nodup_cons] at hnodup
    rcases List.mem_cons.mp hmem with hhit | hrest2
    · rw [Prod.mk.injEq] at hhit
      obtain ⟨hk1, hv1⟩ := hhit
      subst hk1
      subst hv1
      rw [hty] at hty0
      injection hty0 with hto
      subst hto
      obtain ⟨fin, heq, hp⟩ := convertLoop_ok_and_pres trim schema rest
        (match fieldOutcome trim ty v with
         | some w => dictInsert out k w
         | none => out)
        (fun kv h => hkeys kv (by simp [h])) (fun kv h => hnull kv (by simp [h]))
      refine ⟨fin, heq, ?_⟩
      rw [hp k hnodup.1]
      cases fieldOutcome trim ty v with
      | some w => exact dictGet?_insert_self out k w
      | none => rfl
    · have hkk : key ≠ k := by
        intro he
        exact (he ▸ hnodup.1) (List.mem_map_of_mem Prod.fst hrest2)
      obtain ⟨fin, heq, hval⟩ := ih
        (match fieldOutcome trim ty0 value with
         | some w => dictInsert out key w
         | none => out)
        k v ty hrest2 hnodup.2 (fun kv h => hkeys kv (by simp [h]))
        (fun kv h => hnull kv (by simp [h])) hty
      refine ⟨fin, heq, ?_⟩
      rw [hval]
      cases fieldOutcome trim ty v with
      | some w => rfl
      | none =>
        cases fieldOutcome trim ty0 value with
        | some w2 => exact dictGet?_insert_ne out key w2 k (Ne.symm hkk)
        | none => rfl

/-- Claim C4: for a field of integer-declared type not removed by
trimming, __convert_values stores the parsed integer when the raw string
parses, stores None when the raw value is the empty string, and omits the
field for non-empty non-numeric text; a field of non-integer type keeps
its raw string unchanged; and the conversion raises no exception. -/
theorem C4_integer_coercion (trim : Bool) (in_dict : List (String × PyVal))
    (schema : List (String × String)) (k s ty : String)
    (hmem : (k, PyVal.str s) ∈ in_dict)
    (hnodup : (dictKeys in_dict).Nodup)
    (hkeys : ∀ kv ∈ in_dict, (dictGet? schema kv.1).isSome = true)
    (hstr : ∀ kv ∈ in_dict, isStr kv.2 = true)
    (hty : dictGet? schema k = some ty)
    (hnotrim : (trim && trimMatch (PyVal.str s)) = false) :
    ∃ out, convert_values trim in_dict schema = Except.ok out ∧
      (hasINTEGER ty = true →
        (∀ n, pyStrToInt s = some n → dictGet? out k = some (PyVal.int n)) ∧
        (s = "" → dictGet? out k = some PyVal.null) ∧
        (pyStrToInt s = none → s ≠ "" → dictGet? out k = none)) ∧
      (hasINTEGER ty = false → dictGet? out k = some (PyVal.str s)) := by
  have hnull : ∀ kv ∈ in_dict, kv.2 ≠ PyVal.null := by
    intro kv h he
    have hs := hstr kv h
    rw [he] at hs
    simp [isStr] at hs
  obtain ⟨fin, heq, hval⟩ := convertLoop_lookup trim schema in_dict []
    k (PyVal.str s) ty hmem hnodup hkeys hnull hty
  refine ⟨fin, heq, ?_, ?_⟩
  · intro hint
    refine ⟨?_, ?_, ?_⟩
    · intro n hn
      rw [hval]
      simp [fieldOutcome, hnotrim, hint, pyInt, hn]
    · intro hse
      subst hse
      rw [hval]
      simp [fieldOutcome, hnotrim, hint, pyInt, pyStrToInt_empty]
    · intro hn hse
      rw [hval]
      simp [fieldOutcome, hnotrim, hint, pyInt, hn, hse, dictGet?]
  · intro hint
    rw [hval]
    simp [fieldOutcome, hnotrim, hint]

/-- Witness for C4: the integer field of the row 42/alice is parsed and
stored as the int 42. -/
theorem C4_witness :
    ∃ out, convert_values false [("id", PyVal.str "42"), ("name", PyVal.str "alice")]
        [("id", "INTEGER"), ("name", "STRING")] = Except.ok out ∧
      (hasINTEGER "INTEGER" = true →
        (∀ n, pyStrToInt "42" = some n → dictGet? out "id" = some (PyVal.int n)) ∧
        ("42" = "" → dictGet? out "id" = some PyVal.null) ∧
        (pyStrToInt "42" = none → "42" ≠ "" → dictGet? out "id" = none)) ∧
      (hasINTEGER "INTEGER" = false → dictGet? out "id" = some (PyVal.str "42")) :=
  C4_integer_coercion false [("id", PyVal.str "42"), ("name", PyVal.str "alice")]
    [("id", "INTEGER"), ("name", "STRING")] "id" "42" "INTEGER"
    (by decide) (by decide) (by decide) (by decide) (by decide) (by decide)

/-- Claim C5: with trimming enabled, a field whose raw value is the int 0,
the string 0, or the empty string is omitted from the output Record
before any integer coercion is attempted, whatever its declared type; in
particular the row 0/bob loses its id field. -/
theorem C5_trim_omits_zero_and_empty (in_dict : List (String × PyVal))
    (schema : List (String × String)) (k : String) (v : PyVal)
    (hmem : (k, v) ∈ in_dict)
    (hnodup : (dictKeys in_dict).Nodup)
    (hkeys : ∀ kv ∈ in_dict, (dictGet? schema kv.1).isSome = true)
    (hnull : ∀ kv ∈ in_dict, kv.2 ≠ PyVal.null)
    (hv : v = PyVal.int 0 ∨ v = PyVal.str "0" ∨ v = PyVal.str "") :
    (∃ out, convert_values true in_dict schema = Except.ok out ∧
       dictGet? out k = none ∧ k ∉ dictKeys out) ∧
    convert_values true [("id", PyVal.str "0"), ("name", PyVal.str "bob")]
        [("id", "INTEGER"), ("name", "STRING")] =
      Except.ok [("name", PyVal.str "bob")] := by
  constructor
  · obtain ⟨ty, hty⟩ := Option.isSome_iff_exists.mp (hkeys (k, v) hmem)
    obtain ⟨fin, heq, hval⟩ := convertLoop_lookup true schema in_dict [] k v ty
      hmem hnodup hkeys hnull hty
    have htm : trimMatch v = true := by
      rcases hv with h | h | h <;> subst h <;> decide
    have hout : fieldOutcome true ty v = none := by
      simp [fieldOutcome, htm]
    rw [hout] at hval
    simp only [dictGet?] at hval
    refine ⟨fin, heq, hval, ?_⟩
    rw [← dictGet?_eq_none_iff]
    exact hval
  · decide

/-- Witness for C5: the concrete row 0/bob under the INTEGER/STRING
schema drops its id field with trimming enabled. -/
theorem C5_witness :
    (("id", PyVal.str "0") ∈ [("id", PyVal.str "0"), ("name", PyVal.str "bob")]) ∧
    ((∃ out, convert_values true [("id", PyVal.str "0"), ("name", PyVal.str "bob")]
        [("id", "INTEGER"), ("name", "STRING")] = Except.ok out ∧
        dictGet? out "id" = none ∧ "id" ∉ dictKeys out) ∧
     convert_values true [("id", PyVal.str "0"), ("name", PyVal.str "bob")]
        [("id", "INTEGER"), ("name", "STRING")] =
      Except.ok [("name", PyVal.str "bob")]) :=
  ⟨by decide,
   C5_trim_omits_zero_and_empty [("id", PyVal.str "0"), ("name", PyVal.str "bob")]
     [("id", "INTEGER"), ("name", "STRING")] "id" (PyVal.str "0")
     (by decide) (by decide) (by decide) (by decide) (Or.inr (Or.inl rfl))⟩

/-- Keys of a successful conversion come from the accumulator or the
input fields. -/
theorem convertLoop_keys (trim : Bool) (schema : List (String × String))
    (d : List (String × PyVal)) :
    ∀ (out fin : List (String × PyVal)),
      convertLoop trim schema out d = Except.ok fin →
      ∀ k ∈ dictKeys fin, k ∈ dictKeys out ∨ k ∈ dictKeys d := by
  induction d with
  | nil =>
    intro out fin h k hk
    simp only [convertLoop] at h
    injection h with h
    subst h
    exact Or.inl hk
  | cons kv rest ih =>
    obtain ⟨key, value⟩ := kv
    intro out fin h k hk
    cases hg : dictGet? schema key with
    | none => simp [convertLoop, hg] at h
    | some ty0 =>
      have hcommon : ∀ out1 : List (String × PyVal),
          convertLoop trim schema out1 rest = Except.ok fin →
          (∀ k2 ∈ dictKeys out1, k2 ∈ dictKeys out ∨ k2 = key) →
          k ∈ dictKeys out ∨ k ∈ dictKeys ((key, value) :: rest) := by
        intro out1 h1 hsub
        rcases ih out1 fin h1 k hk with h2 | h2
        · rcases hsub k h2 with h3 | h3
          · exact Or.inl h3
          · right
            simp only [dictKeys, List.map_cons, List.mem_cons]
            exact Or.inl h3
        · right
          simp only [dictKeys, List.map_cons, List.mem_cons]
          exact Or.inr h2
      by_cases htr : (trim && trimMatch value) = true
      · have hstep : convertLoop trim schema out ((key, value) :: rest) =
            convertLoop trim schema out rest := by
          simp [convertLoop, hg, htr]
        rw [hstep] at h
        exact hcommon out h (fun k2 hk2 => Or.inl hk2)
      · by_cases hint : hasINTEGER ty0 = true
        · cases hpi : pyInt value with
          | some n =>
            have hstep : convertLoop trim schema out ((key, value) :: rest) =
                convertLoop trim schema (dictInsert out key (PyVal.int n)) rest := by
              simp [convertLoop, hg, htr, hint, hpi]
            rw [hstep] at h
            exact hcommon _ h (fun k2 hk2 => mem_keys_dictInsert out key _ k2 hk2)
          | none =>
            rcases value with n | s | hx
            · simp [pyInt] at hpi
            · by_cases hse : s = ""
              · subst hse
                have hstep : convertLoop trim schema out ((key, PyVal.str "") :: rest) =
                    convertLoop trim schema (dictInsert out key PyVal.null) rest := by
                  simp [convertLoop, hg, htr, hint, hpi]
                rw [hstep] at h
                exact hcommon _ h (fun k2 hk2 => mem_keys_dictInsert out key _ k2 hk2)
              · have hstep : convertLoop trim schema out ((key, PyVal.str s) :: rest) =
                    convertLoop trim schema out rest := by
                  simp [convertLoop, hg, htr, hint, hpi, hse]
                rw [hstep] at h
                exact hcommon out h (fun k2 hk2 => Or.inl hk2)
            · simp [convertLoop, hg, htr, hint, hpi] at h
        · have hstep : convertLoop trim schema out ((key, value) :: rest) =
              convertLoop trim schema (dictInsert out key value) rest := by
            simp [convertLoop, hg, htr, hint]
          rw [hstep] at h
          exact hcommon _ h (fun k2 hk2 => mem_keys_dictInsert out key _ k2 hk2)

/-- The row loop over decodable rows never raises: each row is zipped
against the file schema keys, converted, and appended in order. -/
theorem rowLoop_spec (trim : Bool) (fs : List (String × String))
    (rows : List (List String)) :
    ∀ acc, ∃ items,
      rowLoop trim fs acc (rows.map RawRow.ok) = (acc ++ items, none) ∧
      items.length = rows.length ∧
      (∀ i, i < rows.length →
        convert_values trim (dictOfZip (dictKeys fs) ((rows.getD i []).map PyVal.str)) fs =
          Except.ok (items.getD i [])) := by
  induction rows with
  | nil =>
    intro acc
    refine ⟨[], by simp [rowLoop], rfl, ?_⟩
    intro i hi
    simp at hi
  | cons row rest ih =>
    intro acc
    have hkeys : ∀ kv ∈ dictOfZip (dictKeys fs) (row.map PyVal.str),
        (dictGet? fs kv.1).isSome = true := by
      intro kv h
      exact (mem_keys_iff_isSome fs kv.1).mp (mem_dictOfZip _ _ kv h).1
    have hnull : ∀ kv ∈ dictOfZip (dictKeys fs) (row.map PyVal.str),
        kv.2 ≠ PyVal.null := by
      intro kv h he
      have h2 := (mem_dictOfZip _ _ kv h).2
      rw [he] at h2
      rcases List.mem_map.mp h2 with ⟨s, _, hs⟩
      exact PyVal.noConfusion hs
    obtain ⟨item, hitem, _⟩ := convertLoop_ok_and_pres trim fs
      (dictOfZip (dictKeys fs) (row.map PyVal.str)) [] hkeys hnull
    have hitem2 : convert_values trim (dictOfZip (dictKeys fs) (row.map PyVal.str)) fs =
        Except.ok item := hitem
    obtain ⟨items, hloop, hlen, hidx⟩ := ih (acc ++ [item])
    refine ⟨item :: items, ?_, by simp [hlen], ?_⟩
    · simp only [List.map_cons, rowLoop, hitem2, hloop]
      simp
    · intro i hi
      cases i with
      | zero => simpa using hitem2
      | succ j =>
        have hj : j < rest.length := by
          simp only [List.length_cons] at hi
          omega
        simpa using hidx j hj

/-- A file with decodable headers and rows is processed without
exception: its own header dict is the schema used for its rows, stored
for the record type only when unseen, and the file name is recorded. -/
theorem processFile_valid (trim : Bool) (st : PState) (fname : String)
    (n t : List String) (rows : List (List String)) :
    ∃ items,
      processFile trim st
          (CDRFile.mk fname (RawRow.ok n :: RawRow.ok t :: rows.map RawRow.ok)) =
        (PState.mk
          (if dictHasKey st.data_schema (get_record_type fname) then st.data_schema
           else dictInsert st.data_schema (get_record_type fname) (dictOfZip n t))
          (st.data_list ++ items)
          (st.file_list ++ [fname]), none) ∧
      items.length = rows.length ∧
      (∀ i, i < rows.length →
        convert_values trim
          (dictOfZip (dictKeys (dictOfZip n t)) ((rows.getD i []).map PyVal.str))
          (dictOfZip n t) = Except.ok (items.getD i [])) := by
  obtain ⟨items, hloop, hlen, hidx⟩ := rowLoop_spec trim (dictOfZip n t) rows []
  simp only [List.nil_append] at hloop
  refine ⟨items, ?_, hlen, hidx⟩
  simp only [processFile, hloop]

/-- Claim C1 (amended: rows are zipped against the OWN header-derived
schema of the current file, not against the first established Schema;
only the stored schema map keeps the header of the first file): for two
RecordType-1 files the schema map holds the pairing taken from the first
file, while each record of the second file is the conversion of its row
against the own field names of the second file, so its keys all come
from the second header. -/
theorem C1_rows_use_own_header (trim : Bool) (st : PState) (name1 name2 : String)
    (n1 t1 n2 t2 : List String) (rows1 rows2 : List (List String))
    (f1 f2 : CDRFile) (res : PState × Option PyErr)
    (hf1 : f1 = CDRFile.mk name1 (RawRow.ok n1 :: RawRow.ok t1 :: rows1.map RawRow.ok))
    (hf2 : f2 = CDRFile.mk name2 (RawRow.ok n2 :: RawRow.ok t2 :: rows2.map RawRow.ok))
    (hres : res = process_directory trim st [f1, f2])
    (h1 : get_record_type name1 = 1) (h2 : get_record_type name2 = 1) :
    res.2 = none ∧
    dictGet? res.1.data_schema 1 = some (dictOfZip n1 t1) ∧
    ∃ items1 items2,
      res.1.data_list = items1 ++ items2 ∧
      items1.length = rows1.length ∧
      items2.length = rows2.length ∧
      (∀ i, i < rows2.length →
        convert_values trim
          (dictOfZip (dictKeys (dictOfZip n2 t2)) ((rows2.getD i []).map PyVal.str))
          (dictOfZip n2 t2) = Except.ok (items2.getD i [])) ∧
      (∀ item ∈ items2, ∀ k ∈ dictKeys item, k ∈ n2) := by
  subst hf1
  subst hf2
  subst hres
  obtain ⟨items1, hp1, hlen1, hidx1⟩ :=
    processFile_valid trim (PState.mk [] [] st.file_list) name1 n1 t1 rows1
  rw [h1] at hp1
  have hds1 : (if dictHasKey (PState.mk [] [] st.file_list).data_schema 1
      then (PState.mk [] [] st.file_list).data_schema
      else dictInsert (PState.mk [] [] st.file_list).data_schema 1 (dictOfZip n1 t1)) =
      [(1, dictOfZip n1 t1)] := by
    simp [dictHasKey, dictGet?, dictInsert]
  rw [hds1] at hp1
  simp only [List.nil_append] at hp1
  obtain ⟨items2, hp2, hlen2, hidx2⟩ :=
    processFile_valid trim
      (PState.mk [(1, dictOfZip n1 t1)] items1 (st.file_list ++ [name1])) name2 n2 t2 rows2
  rw [h2] at hp2
  have hds2 : (if dictHasKey
        (PState.mk [(1, dictOfZip n1 t1)] items1 (st.file_list ++ [name1])).data_schema 1
      then (PState.mk [(1, dictOfZip n1 t1)] items1 (st.file_list ++ [name1])).data_schema
      else dictInsert
        (PState.mk [(1, dictOfZip n1 t1)] items1 (st.file_list ++ [name1])).data_schema 1
        (dictOfZip n2 t2)) = [(1, dictOfZip n1 t1)] := by
    simp [dictHasKey, dictGet?]
  rw [hds2] at hp2
  have hreset : resetState st = PState.mk [] [] st.file_list := rfl
  have hrun : process_directory trim st
      [CDRFile.mk name1 (RawRow.ok n1 :: RawRow.ok t1 :: rows1.map RawRow.ok),
       CDRFile.mk name2 (RawRow.ok n2 :: RawRow.ok t2 :: rows2.map RawRow.ok)] =
      (PState.mk [(1, dictOfZip n1 t1)] (items1 ++ items2)
        ((st.file_list ++ [name1]) ++ [name2]), none) := by
    show runFiles trim (resetState st) _ = _
    rw [hreset]
    simp only [runFiles, hp1, hp2]
  rw [hrun]
  refine ⟨rfl, by simp [dictGet?], items1, items2, rfl, hlen1, hlen2, hidx2, ?_⟩
  intro item hitem k hk
  obtain ⟨i, hget⟩ := List.get_of_mem hitem
  have hi : (i : Nat) < items2.length := i.isLt
  have hgd : items2.getD (i : Nat) [] = item := by
    rw [List.getD_eq_getElem items2 [] hi]
    simpa using hget
  have hconv := hidx2 (i : Nat) (by omega)
  rw [hgd] at hconv
  have hkeys := convertLoop_keys trim (dictOfZip n2 t2)
    (dictOfZip (dictKeys (dictOfZip n2 t2)) (((rows2.getD (i : Nat) [])).map PyVal.str))
    [] item hconv k hk
  rcases hkeys with hcase | hcase
  · simp [dictKeys] at hcase
  · exact mem_keys_dictOfZip n2 t2 k (mem_keys_dictOfZip _ _ k hcase)

/-- Claim C1, original statement false: with two differing-header
RecordType-1 files, the record from the second file is keyed by the own
field name b of the second file, not by the field name a of the first
established Schema. -/
theorem C1_counterexample :
    (process_directory false (PState.mk [] [] [])
        [CDRFile.mk "cdr1" [RawRow.ok ["a"], RawRow.ok ["INTEGER"], RawRow.ok ["5"]],
         CDRFile.mk "cdr2" [RawRow.ok ["b"], RawRow.ok ["STRING"], RawRow.ok ["x"]]]).1.data_list =
      [[("a", PyVal.int 5)], [("b", PyVal.str "x")]] ∧
    dictGet? (process_directory false (PState.mk [] [] [])
        [CDRFile.mk "cdr1" [RawRow.ok ["a"], RawRow.ok ["INTEGER"], RawRow.ok ["5"]],
         CDRFile.mk "cdr2" [RawRow.ok ["b"], RawRow.ok ["STRING"], RawRow.ok ["x"]]]).1.data_schema 1 =
      some [("a", "INTEGER")] ∧
    ¬ dictKeys ((process_directory false (PState.mk [] [] [])
        [CDRFile.mk "cdr1" [RawRow.ok ["a"], RawRow.ok ["INTEGER"], RawRow.ok ["5"]],
         CDRFile.mk "cdr2" [RawRow.ok ["b"], RawRow.ok ["STRING"], RawRow.ok ["x"]]]).1.data_list.getD 1 []) =
      dictKeys [(("a" : String), "INTEGER")] := by decide

/-- Witness for C1: the two-file scenario with headers a/INTEGER and
b/STRING and one data row each. -/
theorem C1_witness :
    (process_directory false (PState.mk [] [] [])
        [CDRFile.mk "cdr1" [RawRow.ok ["a"], RawRow.ok ["INTEGER"], RawRow.ok ["5"]],
         CDRFile.mk "cdr2" [RawRow.ok ["b"], RawRow.ok ["STRING"], RawRow.ok ["x"]]]).2 = none ∧
    dictGet? (process_directory false (PState.mk [] [] [])
        [CDRFile.mk "cdr1" [RawRow.ok ["a"], RawRow.ok ["INTEGER"], RawRow.ok ["5"]],
         CDRFile.mk "cdr2" [RawRow.ok ["b"], RawRow.ok ["STRING"], RawRow.ok ["x"]]]).1.data_schema 1 =
      some (dictOfZip ["a"] ["INTEGER"]) ∧
    ∃ items1 items2,
      (process_directory false (PState.mk [] [] [])
        [CDRFile.mk "cdr1" [RawRow.ok ["a"], RawRow.ok ["INTEGER"], RawRow.ok ["5"]],
         CDRFile.mk "cdr2" [RawRow.ok ["b"], RawRow.ok ["STRING"], RawRow.ok ["x"]]]).1.data_list =
        items1 ++ items2 ∧
      items1.length = ([["5"]] : List (List String)).length ∧
      items2.length = ([["x"]] : List (List String)).length ∧
      (∀ i, i < ([["x"]] : List (List String)).length →
        convert_values false
          (dictOfZip (dictKeys (dictOfZip ["b"] ["STRING"]))
            ((([["x"]] : List (List String)).getD i []).map PyVal.str))
          (dictOfZip ["b"] ["STRING"]) = Except.ok (items2.getD i [])) ∧
      (∀ item ∈ items2, ∀ k ∈ dictKeys item, k ∈ ["b"]) :=
  C1_rows_use_own_header false (PState.mk [] [] []) "cdr1" "cdr2"
    ["a"] ["INTEGER"] ["b"] ["STRING"] [["5"]] [["x"]] _ _ _
    rfl rfl rfl (by decide) (by decide)

end CDR
